import Mathlib

set_option maxRecDepth 8000

/-!
Verification of the clean-and-impute stage of the SDG7 pipeline
(`src/dags/DAG.py`).  The pandas program is shallowly embedded:
a data frame is a list of named, dtype-tagged columns, each column a list
of cells; a cell is missing (`none`, pandas NaN) or holds a numeric or
string value.  Each cleaning step of `clean_data` (DAG.py lines 60-118)
becomes a Lean function; steps that can raise a Python exception return
`Except String DF`.  Machine floats are modelled by `ℚ`.
-/

/-- A pandas scalar value: a number (float/int, modelled by `ℚ`) or a string. -/
inductive PVal where
  | num (q : ℚ)
  | str (s : String)
deriving DecidableEq, Repr

/-- A cell of a data frame: `none` is pandas NaN/missing. -/
abbrev PCell := Option PVal

/-- The dtype of a pandas column: numeric (int64/float64) or object. -/
inductive Dty where
  | num
  | obj
deriving DecidableEq, Repr

/-- One column of a data frame: a name, a dtype and the column's cells. -/
structure PCol where
  name : String
  dty : Dty
  cells : List PCell
deriving DecidableEq, Repr

/-- A pandas data frame, column-oriented. -/
structure DF where
  cols : List PCol
deriving DecidableEq, Repr

/-- `select_dtypes(include='number')` test on one column. -/
def PCol.isNumeric (c : PCol) : Bool :=
  match c.dty with
  | .num => true
  | .obj => false

/-- Column names of a data frame, in order (`data.columns`). -/
def DF.names (df : DF) : List String := df.cols.map (fun c => c.name)

/-- Number of rows (pandas data frames are rectangular; in this embedding
it is the length of the first column). -/
def DF.nrows (df : DF) : Nat :=
  match df.cols with
  | [] => 0
  | c :: _ => c.cells.length

/-- The rectangularity invariant of a real pandas frame: every column has
the same number of cells. -/
def DF.uniform (df : DF) : Prop := ∀ c ∈ df.cols, c.cells.length = df.nrows

instance (df : DF) : Decidable df.uniform := by
  unfold DF.uniform; infer_instance

/-! ### Column-name normalization (DAG.py lines 63-78) -/

/-- `str.lower()` on one ASCII character. -/
def lowerChar (c : Char) : Char :=
  if 'A' ≤ c ∧ c ≤ 'Z' then Char.ofNat (c.toNat + 32) else c

/-- Fuelled scanner for `re.sub(r'\([^)]*\)', '', col)`: each group from a
`(` to the first following `)` is deleted; a `(` with no later `)`
matches nothing and is kept.  The fuel (initially the string length,
which bounds the number of scanner steps) only serves termination. -/
def removeParensGo : Nat → List Char → List Char
  | 0, l => l
  | _ + 1, [] => []
  | fuel + 1, c :: cs =>
    if c = '(' then
      match cs.dropWhile (fun d => ¬ d = ')') with
      | [] => c :: cs
      | _ :: rest => removeParensGo fuel rest
    else c :: removeParensGo fuel cs

/-- `re.sub(r'\([^)]*\)', '', col)`. -/
def removeParens (l : List Char) : List Char := removeParensGo l.length l

/-- Membership in the character class `[a-z0-9_]`. -/
def isClassChar (c : Char) : Bool :=
  ('a' ≤ c ∧ c ≤ 'z') ∨ ('0' ≤ c ∧ c ≤ '9') ∨ c = '_'

/-- `re.sub(r'[^a-z0-9_]', ' ', col)`. -/
def spaceNonClass (c : Char) : Char := if isClassChar c then c else ' '

/-- Python's `\s` class (ASCII) together with the hyphen of `[\s-]`. -/
def isSep (c : Char) : Bool :=
  c = ' ' ∨ c = '\t' ∨ c = '\n' ∨ c = '\r' ∨ c = '\x0b' ∨ c = '\x0c' ∨ c = '-'

/-- `re.sub(r'[\s-]+', '_', col)`: every maximal run of whitespace or
hyphens becomes one underscore.  The flag records whether the previous
character belonged to the current run. -/
def collapseGo : Bool → List Char → List Char
  | _, [] => []
  | afterSep, c :: cs =>
    if isSep c then
      (if afterSep then collapseGo true cs else '_' :: collapseGo true cs)
    else c :: collapseGo false cs

/-- Left half of `.strip('_')`. -/
def trimLeft (l : List Char) : List Char := l.dropWhile (fun c => c = '_')

/-- Right half of `.strip('_')`, implemented structurally. -/
def trimRight : List Char → List Char
  | [] => []
  | c :: cs =>
    match trimRight cs with
    | [] => if c = '_' then [] else [c]
    | r => c :: r

/-- The whole normalization body of the loop at DAG.py lines 64-77. -/
def normChars (s : List Char) : List Char :=
  trimRight (trimLeft (collapseGo false
    ((removeParens (s.map lowerChar)).map spaceNonClass)))

/-- Column-name normalization as a `String` function. -/
def normalizeName (s : String) : String := String.mk (normChars s.data)

/-! ### The cleaning steps of `clean_data` -/

/-- Step 1 (DAG.py line 78): replace every column name by its
normalization.  Cells and dtypes are untouched. -/
def normalizeStep (df : DF) : DF :=
  ⟨df.cols.map (fun c => { c with name := normalizeName c.name })⟩

/-- The two columns dropped at DAG.py line 82. -/
def dropNames : List String :=
  ["financial_flows_to_developing_countries", "renewables"]

/-- Step 2 (line 82): `data.drop(columns=[...])`.  pandas raises
`KeyError` when any listed column is absent; otherwise the listed
columns are removed. -/
def dropStep (df : DF) : Except String DF :=
  if dropNames.all (fun n => df.cols.any (fun c => c.name = n)) then
    .ok ⟨df.cols.filter (fun c => ¬ dropNames.contains c.name)⟩
  else .error "KeyError: drop"

/-- The four percentage columns clamped at DAG.py line 86. -/
def pctCols : List String :=
  ["access_to_electricity", "access_to_clean_fuels_for_cooking",
   "renewable_energy_share_in_the_total_final_energy_consumption",
   "low_carbon_electricity"]

/-- One cell under `data.loc[data[col] > 100, col] = 100`: a numeric value
above 100 becomes 100; values up to 100 and NaN (for which `> 100` is
False) are unchanged. -/
def clampCell (cell : PCell) : PCell :=
  match cell with
  | some (.num q) => if 100 < q then some (.num 100) else some (.num q)
  | other => other

/-- The column rewrite of one `data.loc[data[col] > 100, col] = 100`
assignment: the named column's cells are clamped, other columns kept. -/
def clampFun (nm : String) (d : PCol) : PCol :=
  if d.name = nm then { d with cells := d.cells.map clampCell } else d

/-- `data.loc[data[col] > 100, col] = 100` for one column: `KeyError` when
the column is absent, `TypeError` when the comparison meets a string. -/
def clampCol (df : DF) (nm : String) : Except String DF :=
  match df.cols.find? (fun c => c.name = nm) with
  | none => .error "KeyError: clamp"
  | some c =>
    if c.cells.any (fun cell =>
        match cell with | some (.str _) => true | _ => false) then
      .error "TypeError: ordering str and int"
    else
      .ok ⟨df.cols.map (clampFun nm)⟩

/-- The `for col in pct_cols` loop of DAG.py lines 87-88. -/
def clampList : List String → DF → Except String DF
  | [], df => .ok df
  | nm :: rest, df =>
    match clampCol df nm with
    | .error e => .error e
    | .ok d => clampList rest d

/-- Step 3 (lines 86-88). -/
def clampStep (df : DF) : Except String DF := clampList pctCols df

/-- `str.replace(',', '.')` on one character. -/
def commaDot (c : Char) : Char := if c = ',' then '.' else c

/-- The `.str.replace(',', '.')` accessor on one cell: strings are
rewritten, NaN stays NaN, and any non-string entry becomes NaN. -/
def repairCell (cell : PCell) : PCell :=
  match cell with
  | some (.str s) => some (.str (String.mk (s.data.map commaDot)))
  | _ => none

/-- Decimal digits `0-9`. -/
def isDig (c : Char) : Bool := '0' ≤ c ∧ c ≤ '9'

/-- Digit-list to number, most significant first. -/
def digitsVal (l : List Char) : Nat :=
  l.foldl (fun n c => 10 * n + (c.toNat - '0'.toNat)) 0

/-- The exponent suffix of a Python float literal: `e`/`E`, an optional
sign and at least one digit, consuming the whole remainder. -/
def parseExp (l : List Char) : Option ℤ :=
  match l with
  | [] => some 0
  | e :: r =>
    if e = 'e' ∨ e = 'E' then
      let (sgn, r2) : ℤ × List Char :=
        match r with
        | '+' :: rr => (1, rr)
        | '-' :: rr => (-1, rr)
        | _ => (1, r)
      let ds := r2.takeWhile isDig
      let r3 := r2.dropWhile isDig
      if ds = [] ∨ ¬ r3 = [] then none
      else some (sgn * (digitsVal ds : ℤ))
    else none

/-- `float(s)` on the characters of `s` (common grammar: optional sign,
digits with an optional fractional part, optional exponent).  `none`
models the `ValueError` raised on an unparseable string. -/
def parseFloatChars (l : List Char) : Option ℚ :=
  let (sgn, l1) : ℚ × List Char :=
    match l with
    | '+' :: r => (1, r)
    | '-' :: r => (-1, r)
    | _ => (1, l)
  let ip := l1.takeWhile isDig
  let r1 := l1.dropWhile isDig
  let (fp, r2) : List Char × List Char :=
    match r1 with
    | '.' :: r => (r.takeWhile isDig, r.dropWhile isDig)
    | _ => ([], r1)
  if ip = [] ∧ fp = [] then none
  else
    match parseExp r2 with
    | none => none
    | some e =>
      let base : ℚ :=
        (digitsVal ip : ℚ) + (digitsVal fp : ℚ) / ((10 : ℚ) ^ fp.length)
      let scaled : ℚ :=
        if 0 ≤ e then base * (10 : ℚ) ^ e.toNat else base / (10 : ℚ) ^ (-e).toNat
      some (sgn * scaled)

/-- `float(s)` for a `String`. -/
def parseFloat (s : String) : Option ℚ := parseFloatChars s.data

/-- Step 4 (lines 92-93): comma-to-period repair of `density_n`.
Line 92 needs the column (else `KeyError`) with object dtype (`.str` on a
numeric column raises `AttributeError`) and writes the replaced strings
back.  Line 93 computes `astype('float')` and drops the result: it can
only raise `ValueError` on an unparseable string — the column itself
keeps its object dtype and its string cells. -/
def repairFun (c0 : PCol) (c : PCol) : PCol :=
  if c.name = "density_n" then { c with cells := c0.cells.map repairCell } else c

def repairStep (df : DF) : Except String DF :=
  match df.cols.find? (fun c => c.name = "density_n") with
  | none => .error "KeyError: density_n"
  | some c =>
    match c.dty with
    | .num => .error "AttributeError: .str accessor on numeric column"
    | .obj =>
      if (c.cells.map repairCell).all (fun cell =>
          match cell with
          | some (.str s) => (parseFloat s).isSome
          | _ => true) then
        .ok ⟨df.cols.map (repairFun c)⟩
      else .error "ValueError: could not convert string to float"

/-! ### KNN imputation (DAG.py lines 98-107, `KNNImputer(n_neighbors=15)`) -/

/-- The numeric matrix handed to the imputer: one entry per row and
numeric column, `none` for NaN. -/
abbrev MRow := List (Option ℚ)

abbrev QMat := List MRow

/-- Index-aware map, used to keep row and column positions explicit. -/
def idxMapGo {α β : Type} (f : Nat → α → β) : Nat → List α → List β
  | _, [] => []
  | i, a :: as => f i a :: idxMapGo f (i + 1) as

def idxMap {α β : Type} (f : Nat → α → β) (l : List α) : List β :=
  idxMapGo f 0 l

/-- The numeric value of a cell of a numeric column (`none` for NaN; a
stray string in a numeric column — impossible for a well-typed frame —
also reads as NaN). -/
def cellQ (cell : PCell) : Option ℚ :=
  match cell with
  | some (.num q) => some q
  | _ => none

/-- Squared `nan_euclidean` distance between two rows, scaled as in
scikit-learn by `n_features / n_shared`: defined only when the rows share
at least one coordinate where both are present.  Only the ordering of
distances matters to the imputer (neighbor values are averaged with
uniform weights), and squaring is monotone, so squared distances embed
the selection faithfully over `ℚ`. -/
def nanDist2 (x y : MRow) : Option ℚ :=
  let ds := (x.zip y).filterMap (fun p =>
    match p with
    | (some a, some b) => some ((a - b) * (a - b))
    | _ => none)
  match ds with
  | [] => none
  | _ => some ((x.length : ℚ) * ds.sum / (ds.length : ℚ))

/-- The non-missing values of column `j`. -/
def colVals (m : QMat) (j : Nat) : List ℚ :=
  m.filterMap (fun row => row.getD j none)

/-- Mean of a list of rationals. -/
def meanQ (l : List ℚ) : Option ℚ :=
  match l with
  | [] => none
  | _ => some (l.sum / (l.length : ℚ))

/-- Insertion into a distance-sorted donor list. -/
def insertPair (p : ℚ × ℚ) : List (ℚ × ℚ) → List (ℚ × ℚ)
  | [] => [p]
  | q :: qs => if p.1 ≤ q.1 then p :: q :: qs else q :: insertPair p qs

/-- Sort donors by distance. -/
def sortPairs : List (ℚ × ℚ) → List (ℚ × ℚ)
  | [] => []
  | p :: ps => insertPair p (sortPairs ps)

/-- The fill value for a missing entry at row `i`, column `j`: the mean of
the column-`j` values of the `k` nearest rows that have column `j` and a
defined distance to row `i`; when no such donor exists, scikit-learn
falls back to the column mean. -/
def fillValue (k : Nat) (m : QMat) (i j : Nat) : Option ℚ :=
  let x := m.getD i []
  let donors := (List.range m.length).filterMap (fun i2 =>
    if i2 = i then none
    else
      match (m.getD i2 []).getD j none, nanDist2 x (m.getD i2 []) with
      | some v, some d => some (d, v)
      | _, _ => none)
  match meanQ (((sortPairs donors).take k).map (fun p => p.2)) with
  | some v => some v
  | none => meanQ (colVals m j)

/-- `KNNImputer(n_neighbors=k).fit_transform`: observed entries pass
through unchanged; each missing entry is replaced by `fillValue`. -/
def knnImpute (k : Nat) (m : QMat) : QMat :=
  idxMap (fun i row =>
    idxMap (fun j cell =>
      match cell with
      | some v => some v
      | none => fillValue k m i j) row) m

/-- The matrix of the numeric columns (`n` rows). -/
def toMatrix (cols : List PCol) (n : Nat) : QMat :=
  (List.range n).map (fun i => cols.map (fun c => cellQ (c.cells.getD i none)))

/-- Lines 98-107: split off the numeric columns, run the imputer, rebuild
the numeric frame and concatenate the object columns in front
(`pd.concat([categoricals, numerics_df], axis=1)`).  scikit-learn raises
on an empty fit matrix (no rows or no numeric columns), and a numeric
column that is entirely NaN is dropped by the imputer, making the
`pd.DataFrame(..., columns=numeric_cols)` rebuild raise on the shape
mismatch.  `numColsOf` is `data.select_dtypes(include='number')` (line 98). -/
def numColsOf (df : DF) : List PCol := df.cols.filter (fun c => c.isNumeric)

/-- `data.select_dtypes(include='object')` (line 99). -/
def objColsOf (df : DF) : List PCol := df.cols.filter (fun c => ¬ c.isNumeric)

/-- `pd.DataFrame(imputer.fit_transform(numerics), columns=numeric_cols)`
(lines 103-104): the numeric columns rebuilt from the imputed matrix. -/
def imputedCols (df : DF) : List PCol :=
  idxMap (fun j c =>
    { name := c.name, dty := Dty.num,
      cells := (knnImpute 15 (toMatrix (numColsOf df) df.nrows)).map
        (fun row => (row.getD j none).map PVal.num) }) (numColsOf df)

def imputeStep (df : DF) : Except String DF :=
  if df.nrows = 0 then .error "ValueError: 0 samples"
  else if (numColsOf df).isEmpty then .error "ValueError: 0 features"
  else if (numColsOf df).any (fun c => c.cells.all (fun cell => cellQ cell = none)) then
    .error "ValueError: all-NaN numeric column dropped by imputer"
  else .ok ⟨objColsOf df ++ imputedCols df⟩

/-! ### Median fill and year cast (DAG.py lines 110-114) -/

/-- Insertion sort over `ℚ`. -/
def insertQ (q : ℚ) : List ℚ → List ℚ
  | [] => [q]
  | x :: xs => if q ≤ x then q :: x :: xs else x :: insertQ q xs

def sortQ : List ℚ → List ℚ
  | [] => []
  | x :: xs => insertQ x (sortQ xs)

/-- `Series.median()` (skipna: missing values are ignored; `none` for an
all-missing series — `fillna` with NaN then fills nothing). -/
def medianQ (l : List ℚ) : Option ℚ :=
  let s := sortQ l
  match s.length with
  | 0 => none
  | n + 1 =>
    if (n + 1) % 2 = 1 then s.get? ((n + 1) / 2)
    else
      match s.get? ((n + 1) / 2 - 1), s.get? ((n + 1) / 2) with
      | some a, some b => some ((a + b) / 2)
      | _, _ => none

/-- `data['density_n'].median()` at line 110, on the frame as it stands
after step 4: pandas coerces the object column's strings to floats (they
all parse, as line 93 has already checked) and ignores NaN. -/
def densityMedian (df : DF) : Option ℚ :=
  match df.cols.find? (fun c => c.name = "density_n") with
  | none => none
  | some c =>
    medianQ (c.cells.filterMap (fun cell =>
      match cell with
      | some (.num q) => some q
      | some (.str s) => parseFloat s
      | none => none))

/-- One cell under `fillna(v)`: missing becomes `v`, everything else is
unchanged (with `v` itself NaN, nothing changes). -/
def fillCell (med : Option ℚ) (cell : PCell) : PCell :=
  match cell with
  | none => med.map PVal.num
  | some v => some v

/-- Line 110: `data_imputed.fillna(data['density_n'].median())` — applied
to every column of the frame, object columns included. -/
def fillnaStep (df : DF) (med : Option ℚ) : DF :=
  ⟨df.cols.map (fun c => { c with cells := c.cells.map (fillCell med) })⟩

/-- Lines 98-110 as one block: impute, then median-fill the whole frame,
the median being taken from the pre-imputation frame. -/
def imputeBlock (df : DF) : Except String DF :=
  match imputeStep df with
  | .error e => .error e
  | .ok d => .ok (fillnaStep d (densityMedian df))

/-- Truncation toward zero, the semantics of a float-to-int cast. -/
def truncQ (q : ℚ) : ℤ := q.num / (q.den : ℤ)

/-- One cell under `astype('int')` (applied only when the whole column is
numeric and non-missing). -/
def castIntCell (cell : PCell) : PCell :=
  match cell with
  | some (.num q) => some (.num ((truncQ q : ℤ) : ℚ))
  | other => other

/-- Line 114: `data_imputed['year'] = data_imputed['year'].astype('int')`.
`KeyError` when `year` is absent; `astype('int')` raises on NaN or on a
string; otherwise every value is truncated to an integer and the column
is numeric. -/
def yearFun (c : PCol) : PCol :=
  if c.name = "year" then
    { name := c.name, dty := Dty.num, cells := c.cells.map castIntCell }
  else c

def yearStep (df : DF) : Except String DF :=
  match df.cols.find? (fun c => c.name = "year") with
  | none => .error "KeyError: year"
  | some c =>
    if c.cells.all (fun cell =>
        match cell with | some (.num _) => true | _ => false) then
      .ok ⟨df.cols.map yearFun⟩
    else .error "ValueError: cannot cast to int"

/-- `clean_data` (DAG.py lines 60-118), from the raw frame read at line 60
to the frame written at line 118.  `Except.error` models an exception
aborting the task before the cleaned artifact is written. -/
def cleanData (df0 : DF) : Except String DF :=
  match dropStep (normalizeStep df0) with
  | .error e => .error e
  | .ok df2 =>
    match clampStep df2 with
    | .error e => .error e
    | .ok df3 =>
      match repairStep df3 with
      | .error e => .error e
      | .ok df4 =>
        match imputeBlock df4 with
        | .error e => .error e
        | .ok df5 => yearStep df5

/-- `true` when the stage raises (and hence writes no artifact). -/
def failsOn (e : Except String DF) : Bool :=
  match e with
  | .ok _ => false
  | .error _ => true

/-- The result frame when the stage succeeds. -/
def okFrame (e : Except String DF) : Option DF :=
  match e with
  | .ok d => some d
  | .error _ => none

/-! ### Concrete record sets used as test inputs -/

/-- A numeric column with no missing values. -/
def nCol (nm : String) (qs : List ℚ) : PCol :=
  ⟨nm, .num, qs.map (fun q => some (.num q))⟩

/-- An object (string) column with no missing values. -/
def sCol (nm : String) (ss : List String) : PCol :=
  ⟨nm, .obj, ss.map (fun s => some (.str s))⟩

/-- A small raw record set on which `clean_data` succeeds: two rows, the
full expected schema, one out-of-range percentage (150) and one
comma-decimal density value (`"12,5"`). -/
def sampleDF : DF := ⟨[
  sCol "entity" ["a", "b"],
  nCol "year" [2000, 2001],
  nCol "access_to_electricity" [150, 45],
  nCol "access_to_clean_fuels_for_cooking" [30, 100],
  nCol "renewable_energy_share_in_the_total_final_energy_consumption" [10, 20],
  nCol "low_carbon_electricity" [5, 6],
  nCol "gdp_growth" [200, -5],
  nCol "financial_flows_to_developing_countries" [1, 2],
  nCol "renewables" [3, 4],
  sCol "density_n" ["12,5", "103.2"]]⟩

/-- The frame `clean_data` writes for `sampleDF`: object columns first,
the percentage clamped, and `density_n` still an object column holding
the strings `"12.5"` and `"103.2"`. -/
def sampleOut : DF := ⟨[
  sCol "entity" ["a", "b"],
  sCol "density_n" ["12.5", "103.2"],
  nCol "year" [2000, 2001],
  nCol "access_to_electricity" [100, 45],
  nCol "access_to_clean_fuels_for_cooking" [30, 100],
  nCol "renewable_energy_share_in_the_total_final_energy_consumption" [10, 20],
  nCol "low_carbon_electricity" [5, 6],
  nCol "gdp_growth" [200, -5]]⟩

/-- `sampleDF` with a missing value in the categorical `entity` column. -/
def sampleDF2 : DF := ⟨
  ⟨"entity", .obj, [some (.str "a"), none]⟩ :: [
  nCol "year" [2000, 2001],
  nCol "access_to_electricity" [150, 45],
  nCol "access_to_clean_fuels_for_cooking" [30, 100],
  nCol "renewable_energy_share_in_the_total_final_energy_consumption" [10, 20],
  nCol "low_carbon_electricity" [5, 6],
  nCol "gdp_growth" [200, -5],
  nCol "financial_flows_to_developing_countries" [1, 2],
  nCol "renewables" [3, 4],
  sCol "density_n" ["12,5", "103.2"]]⟩

/-- The frame `clean_data` writes for `sampleDF2`: the missing cell of the
categorical `entity` column has been filled with the median (57.85) of
the density column. -/
def sampleOut2 : DF := ⟨
  ⟨"entity", .obj, [some (.str "a"), some (.num (1157 / 20))]⟩ :: [
  sCol "density_n" ["12.5", "103.2"],
  nCol "year" [2000, 2001],
  nCol "access_to_electricity" [100, 45],
  nCol "access_to_clean_fuels_for_cooking" [30, 100],
  nCol "renewable_energy_share_in_the_total_final_energy_consumption" [10, 20],
  nCol "low_carbon_electricity" [5, 6],
  nCol "gdp_growth" [200, -5]]⟩

/-- `sampleDF` with zero rows (the header-only record set). -/
def sampleDF0 : DF := ⟨[
  sCol "entity" [],
  nCol "year" [],
  nCol "access_to_electricity" [],
  nCol "access_to_clean_fuels_for_cooking" [],
  nCol "renewable_energy_share_in_the_total_final_energy_consumption" [],
  nCol "low_carbon_electricity" [],
  nCol "gdp_growth" [],
  nCol "financial_flows_to_developing_countries" [],
  nCol "renewables" [],
  sCol "density_n" []]⟩

/-- `sampleDF` without its `year` column. -/
def sampleNoYear : DF := ⟨[
  sCol "entity" ["a", "b"],
  nCol "access_to_electricity" [150, 45],
  nCol "access_to_clean_fuels_for_cooking" [30, 100],
  nCol "renewable_energy_share_in_the_total_final_energy_consumption" [10, 20],
  nCol "low_carbon_electricity" [5, 6],
  nCol "gdp_growth" [200, -5],
  nCol "financial_flows_to_developing_countries" [1, 2],
  nCol "renewables" [3, 4],
  sCol "density_n" ["12,5", "103.2"]]⟩

/-- A frame exercising the clamping step alone. -/
def dfClamp : DF := ⟨[
  ⟨"access_to_electricity", .num,
    [some (.num 150), some (.num 100), some (.num 45), none]⟩,
  nCol "access_to_clean_fuels_for_cooking" [30],
  nCol "renewable_energy_share_in_the_total_final_energy_consumption" [10],
  nCol "low_carbon_electricity" [5],
  nCol "gdp_growth" [200]]⟩

/-- A frame exercising the imputation block alone: a categorical column
with a missing value, a parsed density column and one numeric column. -/
def dfW : DF := ⟨[
  ⟨"entity", .obj, [none, some (.str "x")]⟩,
  sCol "density_n" ["4.5", "7.5"],
  nCol "score" [1, 2]]⟩

/-- A two-by-two imputation matrix whose first column is fully observed
and whose second column has one missing entry. -/
def mSample : QMat := [[some 1, none], [some 2, some 3]]

/-- Row `row` has an observed (non-missing) entry in column `j`. -/
def hasValAt (row : MRow) (j : Nat) : Bool :=
  match row.get? j with
  | some (some _) => true
  | _ => false

/-- Every column `clean_data` requires: the two pruned columns, the four
percentage columns, the density column and the year column. -/
def expectedCols : List String := dropNames ++ pctCols ++ ["density_n", "year"]

/-- The frame the clamping step produces from `dfClamp`. -/
def dfClampOut : DF := ⟨[
  ⟨"access_to_electricity", .num,
    [some (.num 100), some (.num 100), some (.num 45), none]⟩,
  nCol "access_to_clean_fuels_for_cooking" [30],
  nCol "renewable_energy_share_in_the_total_final_energy_consumption" [10],
  nCol "low_carbon_electricity" [5],
  nCol "gdp_growth" [200]]⟩

/-- The frame the imputation block produces from `dfW`: the categorical
missing value is filled with the density median 6. -/
def dfWOut : DF := ⟨[
  ⟨"entity", .obj, [some (.num 6), some (.str "x")]⟩,
  sCol "density_n" ["4.5", "7.5"],
  nCol "score" [1, 2]]⟩

/-! ### Generic list helpers -/

theorem map_fixed {α : Type} (f : α → α) :
    ∀ l : List α, (∀ a ∈ l, f a = a) → l.map f = l := by
  intro l
  induction l with
  | nil => intro _; rfl
  | cons a as ih =>
    intro h
    simp only [List.map_cons]
    rw [h a (by simp), ih (fun x hx => h x (by simp [hx]))]

/-! ### Character-class facts for the normalization pipeline -/

theorem class_not_sep {c : Char} (h : isClassChar c = true) : isSep c = false := by
  cases hs : isSep c
  · rfl
  · exfalso
    simp only [isSep, decide_eq_true_eq] at hs
    rcases hs with h1 | h1 | h1 | h1 | h1 | h1 | h1 <;>
      (subst h1; exact absurd h (by decide))

theorem class_not_lparen {c : Char} (h : isClassChar c = true) : ¬ c = '(' := by
  intro h1; subst h1; exact absurd h (by decide)

theorem class_underscore : isClassChar '_' = true := by decide

theorem lowerChar_fixed {c : Char} (h : isClassChar c = true) : lowerChar c = c := by
  unfold lowerChar
  rw [if_neg]
  intro hAZ
  obtain ⟨h1, h2⟩ := hAZ
  simp only [isClassChar, decide_eq_true_eq] at h
  rcases h with ⟨h3, _⟩ | ⟨_, h4⟩ | h3
  · exact absurd (le_trans h3 h2) (by decide)
  · exact absurd (le_trans h1 h4) (by decide)
  · subst h3; exact absurd h2 (by decide)

theorem spaceNonClass_fixed {c : Char} (h : isClassChar c = true) :
    spaceNonClass c = c := by
  unfold spaceNonClass; rw [if_pos h]

/-! ### The normalization pipeline on already-clean strings -/

theorem removeParensGo_no_paren :
    ∀ (fuel : Nat) (l : List Char), '(' ∉ l → removeParensGo fuel l = l := by
  intro fuel
  induction fuel with
  | zero => intro l _; rfl
  | succ f ih =>
    intro l hl
    cases l with
    | nil => rfl
    | cons c cs =>
      have hc : ¬ c = '(' := fun h => hl (by simp [h])
      simp only [removeParensGo, if_neg hc]
      rw [ih cs (fun h => hl (by simp [h]))]

theorem collapseGo_no_sep :
    ∀ (b : Bool) (l : List Char), (∀ c ∈ l, isSep c = false) → collapseGo b l = l := by
  intro b l
  induction l generalizing b with
  | nil => intro _; rfl
  | cons c cs ih =>
    intro h
    have hc : isSep c = false := h c (by simp)
    simp only [collapseGo, hc]
    rw [ih false (fun x hx => h x (by simp [hx]))]
    simp

theorem trimLeft_no_underscore {l : List Char}
    (h : ∀ c, l.head? = some c → ¬ c = '_') : trimLeft l = l := by
  cases l with
  | nil => rfl
  | cons c cs =>
    have hc := h c rfl
    simp [trimLeft, List.dropWhile_cons, hc]

theorem trimRight_no_underscore :
    ∀ l : List Char, (∀ c, l.getLast? = some c → ¬ c = '_') → trimRight l = l := by
  intro l
  induction l with
  | nil => intro _; rfl
  | cons c cs ih =>
    intro h
    cases cs with
    | nil =>
      have hc := h c rfl
      simp [trimRight, hc]
    | cons d ds =>
      have hcs : trimRight (d :: ds) = d :: ds :=
        ih (fun x hx => h x (by rw [List.getLast?_cons_cons]; exact hx))
      rw [trimRight, hcs]

/-! ### Characterizing the output of the normalization pipeline -/

theorem mem_spaceNonClass_map {l : List Char} {c : Char} (h : c ∈ l.map spaceNonClass) :
    isClassChar c = true ∨ c = ' ' := by
  obtain ⟨a, _, ha⟩ := List.mem_map.mp h
  by_cases hcl : isClassChar a = true
  · left; rw [← ha]; unfold spaceNonClass; rw [if_pos hcl]; exact hcl
  · right; rw [← ha]; unfold spaceNonClass; rw [if_neg hcl]

theorem mem_collapseGo :
    ∀ (b : Bool) (l : List Char) (c : Char), c ∈ collapseGo b l →
      c = '_' ∨ (c ∈ l ∧ isSep c = false) := by
  intro b l
  induction l generalizing b with
  | nil => intro c h; exact absurd h (by simp [collapseGo])
  | cons a as ih =>
    intro c h
    cases hs : isSep a with
    | true =>
      cases b with
      | true =>
        simp only [collapseGo, hs] at h
        rcases ih true c (by simpa using h) with h1 | ⟨h2, h3⟩
        · exact Or.inl h1
        · exact Or.inr ⟨by simp [h2], h3⟩
      | false =>
        simp only [collapseGo, hs] at h
        rcases (by simpa using h : c = '_' ∨ c ∈ collapseGo true as) with rfl | h2
        · exact Or.inl rfl
        · rcases ih true c h2 with h1 | ⟨h3, h4⟩
          · exact Or.inl h1
          · exact Or.inr ⟨by simp [h3], h4⟩
    | false =>
      simp only [collapseGo, hs] at h
      rcases (by simpa using h : c = a ∨ c ∈ collapseGo false as) with rfl | h2
      · exact Or.inr ⟨by simp, hs⟩
      · rcases ih false c h2 with h1 | ⟨h3, h4⟩
        · exact Or.inl h1
        · exact Or.inr ⟨by simp [h3], h4⟩

theorem trimRight_sublist : ∀ l : List Char, List.Sublist (trimRight l) l := by
  intro l
  induction l with
  | nil => exact List.Sublist.refl _
  | cons a as ih =>
    rw [trimRight]
    cases hr : trimRight as with
    | nil =>
      by_cases ha : a = '_'
      · rw [if_pos ha]; exact List.nil_sublist _
      · rw [if_neg ha]; exact List.cons_sublist_cons.mpr (List.nil_sublist _)
    | cons b bs =>
      exact List.cons_sublist_cons.mpr (hr ▸ ih)

theorem mem_trimRight {l : List Char} {c : Char} (h : c ∈ trimRight l) : c ∈ l :=
  (trimRight_sublist l).mem h

theorem mem_trimLeft {l : List Char} {c : Char} (h : c ∈ trimLeft l) : c ∈ l :=
  (List.dropWhile_sublist _).mem h

/-- Every character of a normalized name lies in `[a-z0-9_]`. -/
theorem normChars_chars (s : List Char) : ∀ c ∈ normChars s, isClassChar c = true := by
  intro c hc
  have hc1 := mem_trimLeft (mem_trimRight hc)
  rcases mem_collapseGo false _ c hc1 with rfl | ⟨h2, h3⟩
  · exact class_underscore
  · rcases mem_spaceNonClass_map h2 with h4 | rfl
    · exact h4
    · exact absurd h3 (by decide)

/-- A normalized name does not start with an underscore. -/
theorem normChars_head (s : List Char) {c : Char} {r : List Char}
    (h : normChars s = c :: r) : ¬ c = '_' := by
  unfold normChars at h
  revert h
  cases hl : trimLeft (collapseGo false ((removeParens (s.map lowerChar)).map spaceNonClass)) with
  | nil => intro h; exact absurd h (by simp [trimRight])
  | cons a t =>
    intro h
    have ha : ¬ a = '_' := by
      have := List.head?_dropWhile_not (fun x => decide (x = '_'))
        (collapseGo false ((removeParens (s.map lowerChar)).map spaceNonClass))
      rw [show List.dropWhile (fun x => decide (x = '_'))
            (collapseGo false ((removeParens (s.map lowerChar)).map spaceNonClass))
          = a :: t from hl] at this
      simpa using this
    rw [trimRight] at h
    revert h
    cases hr : trimRight t with
    | nil =>
      by_cases h2 : a = '_'
      · exact absurd h2 ha
      · rw [if_neg h2]
        intro h
        cases h
        exact ha
    | cons b bs =>
      intro h
      cases h
      exact ha

/-- A normalized name does not end with an underscore. -/
theorem trimRight_last :
    ∀ (l : List Char) (c : Char), (trimRight l).getLast? = some c → ¬ c = '_' := by
  intro l
  induction l with
  | nil => intro c h; exact absurd h (by simp [trimRight])
  | cons a as ih =>
    intro c h
    rw [trimRight] at h
    revert h
    cases hr : trimRight as with
    | nil =>
      by_cases h2 : a = '_'
      · rw [if_pos h2]; intro h; exact absurd h (by simp)
      · rw [if_neg h2]
        intro h
        have : a = c := by simpa using h
        rw [← this]; exact h2
    | cons b bs =>
      intro h
      rw [List.getLast?_cons_cons] at h
      exact ih c (hr ▸ h)

theorem normChars_last (s : List Char) {c : Char}
    (h : (normChars s).getLast? = some c) : ¬ c = '_' :=
  trimRight_last _ c h

/-- The loop body of lines 64-77 is idempotent. -/
theorem normChars_idem (s : List Char) : normChars (normChars s) = normChars s := by
  have hchars := normChars_chars s
  have h1 : (normChars s).map lowerChar = normChars s :=
    map_fixed _ _ (fun c hc => lowerChar_fixed (hchars c hc))
  have h2 : removeParens (normChars s) = normChars s := by
    unfold removeParens
    exact removeParensGo_no_paren _ _
      (fun hmem => class_not_lparen (hchars _ hmem) rfl)
  have h3 : (normChars s).map spaceNonClass = normChars s :=
    map_fixed _ _ (fun c hc => spaceNonClass_fixed (hchars c hc))
  have h4 : collapseGo false (normChars s) = normChars s :=
    collapseGo_no_sep false _ (fun c hc => class_not_sep (hchars c hc))
  have h5 : trimLeft (normChars s) = normChars s := by
    apply trimLeft_no_underscore
    intro c hc
    cases hns : normChars s with
    | nil => rw [hns] at hc; exact absurd hc (by simp)
    | cons a t =>
      rw [hns] at hc
      have : a = c := by simpa using hc
      rw [← this]
      exact normChars_head s hns
  have h6 : trimRight (normChars s) = normChars s := by
    apply trimRight_no_underscore
    intro c hc
    exact normChars_last s hc
  show trimRight (trimLeft (collapseGo false
    ((removeParens ((normChars s).map lowerChar)).map spaceNonClass))) = normChars s
  rw [h1, h2, h3, h4, h5, h6]

/-! ### Generic pointwise-correspondence helpers -/

theorem map_congr_mem {α β : Type} (f g : α → β) :
    ∀ l : List α, (∀ a ∈ l, f a = g a) → l.map f = l.map g := by
  intro l
  induction l with
  | nil => intro _; rfl
  | cons a as ih =>
    intro h
    simp only [List.map_cons]
    rw [h a (by simp), ih (fun x hx => h x (by simp [hx]))]

theorem pointwise_mem {P : PCol → PCol → Prop} {l1 l2 : List PCol}
    (hlen : l2.length = l1.length)
    (hpt : ∀ i c, l1.get? i = some c → ∃ c', l2.get? i = some c' ∧ P c c') :
    ∀ c' ∈ l2, ∃ c ∈ l1, P c c' := by
  intro c' hc'
  obtain ⟨i, hget⟩ := List.get?_of_mem hc'
  have hi : i < l2.length := (List.get?_eq_some.mp hget).1
  have hi1 : i < l1.length := hlen ▸ hi
  have hc : l1.get? i = some (l1.get ⟨i, hi1⟩) := List.get?_eq_get hi1
  obtain ⟨c2, hg2, hP⟩ := hpt i _ hc
  rw [hget] at hg2
  injection hg2 with hg2
  subst hg2
  exact ⟨l1.get ⟨i, hi1⟩, List.get_mem _ _ _, hP⟩

theorem map_eq_of_pointwise {β : Type} (g : PCol → β) {l1 l2 : List PCol}
    (hlen : l2.length = l1.length)
    (hpt : ∀ i c, l1.get? i = some c → ∃ c', l2.get? i = some c' ∧ g c' = g c) :
    l2.map g = l1.map g := by
  apply List.ext
  intro i
  rw [List.get?_map, List.get?_map]
  cases hc : l1.get? i with
  | none =>
    have h1 : l1.length ≤ i := List.get?_eq_none.mp hc
    rw [List.get?_eq_none.mpr (by rw [hlen]; exact h1)]
  | some c =>
    obtain ⟨c', hg', he⟩ := hpt i c hc
    rw [hg']
    simpa using he

/-- The (name, dtype) key of a column, preserved by the value-rewriting
steps of the pipeline. -/
def colKey (c : PCol) : String × Dty := (c.name, c.dty)

theorem colKey_name {c1 c2 : PCol} (h : colKey c1 = colKey c2) :
    c1.name = c2.name := congrArg Prod.fst h

theorem colKey_dty {c1 c2 : PCol} (h : colKey c1 = colKey c2) :
    c1.dty = c2.dty := congrArg Prod.snd h

theorem isNumeric_of_colKey {c1 c2 : PCol} (h : colKey c1 = colKey c2) :
    c1.isNumeric = c2.isNumeric := by
  unfold PCol.isNumeric
  rw [colKey_dty h]

/-- The per-row length invariant: every column of `df` has `n` cells. -/
def lenInv (n : Nat) (df : DF) : Prop := ∀ c ∈ df.cols, c.cells.length = n

/-! ### Facts about the clamping step -/

theorem clampCell_idem (cell : PCell) : clampCell (clampCell cell) = clampCell cell := by
  rcases cell with _ | v
  · rfl
  rcases v with q | s
  · by_cases h : (100 : ℚ) < q
    · simp [clampCell, h, lt_irrefl]
    · simp [clampCell, h]
  · rfl

theorem clampFun_name (nm : String) (c : PCol) : (clampFun nm c).name = c.name := by
  unfold clampFun
  by_cases h : c.name = nm
  · rw [if_pos h]
  · rw [if_neg h]

theorem clampFun_dty (nm : String) (c : PCol) : (clampFun nm c).dty = c.dty := by
  unfold clampFun
  by_cases h : c.name = nm
  · rw [if_pos h]
  · rw [if_neg h]

theorem clampFun_len (nm : String) (c : PCol) :
    (clampFun nm c).cells.length = c.cells.length := by
  unfold clampFun
  by_cases h : c.name = nm
  · rw [if_pos h]; exact List.length_map _ _
  · rw [if_neg h]

theorem clampCol_ok {df d' : DF} {nm : String} (h : clampCol df nm = .ok d') :
    (∃ c ∈ df.cols, c.name = nm) ∧ d'.cols = df.cols.map (clampFun nm) := by
  unfold clampCol at h
  split at h
  · exact Except.noConfusion h
  · rename_i c hf
    split at h
    · exact Except.noConfusion h
    · injection h with h
      subst h
      refine ⟨⟨c, List.mem_of_find?_eq_some hf, ?_⟩, rfl⟩
      simpa using List.find?_some hf

theorem clampList_spec :
    ∀ (names : List String) (df d' : DF), clampList names df = .ok d' →
      d'.cols.length = df.cols.length ∧
      (∀ nm ∈ names, ∃ c ∈ df.cols, c.name = nm) ∧
      ∀ i c, df.cols.get? i = some c → ∃ c', d'.cols.get? i = some c' ∧
        c'.name = c.name ∧ c'.dty = c.dty ∧ c'.cells.length = c.cells.length ∧
        (c.name ∈ names → c'.cells = c.cells.map clampCell) ∧
        (c.name ∉ names → c' = c) := by
  intro names
  induction names with
  | nil =>
    intro df d' h
    simp only [clampList] at h
    injection h with h
    subst h
    refine ⟨rfl, by simp, ?_⟩
    intro i c hc
    exact ⟨c, hc, rfl, rfl, rfl, by simp, fun _ => rfl⟩
  | cons nm rest ih =>
    intro df d' h
    rw [clampList] at h
    split at h
    · exact Except.noConfusion h
    · rename_i d1 hcc
      obtain ⟨⟨c0, hc0, hc0n⟩, hcols⟩ := clampCol_ok hcc
      obtain ⟨hlen, hpres, hpt⟩ := ih d1 d' h
      refine ⟨by rw [hlen, hcols, List.length_map], ?_, ?_⟩
      · intro x hx
        rcases List.mem_cons.mp hx with rfl | hx2
        · exact ⟨c0, hc0, hc0n⟩
        · obtain ⟨c1, hc1, hc1n⟩ := hpres x hx2
          rw [hcols] at hc1
          obtain ⟨c2, hc2, hc2e⟩ := List.mem_map.mp hc1
          refine ⟨c2, hc2, ?_⟩
          rw [← hc1n, ← hc2e, clampFun_name]
      · intro i c hget
        have hget1 : d1.cols.get? i = some (clampFun nm c) := by
          rw [hcols, List.get?_map, hget]
          rfl
        obtain ⟨c', hg', hn', hd', hl', hin', hout'⟩ := hpt i (clampFun nm c) hget1
        refine ⟨c', hg', by rw [hn', clampFun_name], by rw [hd', clampFun_dty],
          by rw [hl', clampFun_len], ?_, ?_⟩
        · intro hmem
          by_cases hn : c.name = nm
          · have hcf : (clampFun nm c).cells = c.cells.map clampCell := by
              unfold clampFun; rw [if_pos hn]
            by_cases hr : c.name ∈ rest
            · have he := hin' (by rw [clampFun_name]; exact hr)
              rw [he, hcf, List.map_map]
              exact map_congr_mem _ _ _ (fun a _ => clampCell_idem a)
            · have he := hout' (by rw [clampFun_name]; exact hr)
              rw [he, hcf]
          · rcases List.mem_cons.mp hmem with h1 | h1
            · exact absurd h1 hn
            · have hcf : clampFun nm c = c := by unfold clampFun; rw [if_neg hn]
              rw [hcf] at hin'
              exact hin' h1
        · intro hmem
          have hn : ¬ c.name = nm := fun h1 => hmem (by rw [h1]; exact List.mem_cons_self _ _)
          have hr : c.name ∉ rest := fun h1 => hmem (List.mem_cons_of_mem _ h1)
          have hcf : clampFun nm c = c := by unfold clampFun; rw [if_neg hn]
          rw [hcf] at hout'
          exact hout' hr

theorem clampList_keys {names : List String} {df d' : DF}
    (h : clampList names df = .ok d') : d'.cols.map colKey = df.cols.map colKey := by
  obtain ⟨hlen, _, hpt⟩ := clampList_spec names df d' h
  apply map_eq_of_pointwise _ hlen
  intro i c hc
  obtain ⟨c', hg', hn, hd, _⟩ := hpt i c hc
  exact ⟨c', hg', by unfold colKey; rw [hn, hd]⟩

theorem clampList_lenInv {names : List String} {df d' : DF} {n : Nat}
    (h : clampList names df = .ok d') (hl : lenInv n df) : lenInv n d' := by
  obtain ⟨hlen, _, hpt⟩ := clampList_spec names df d' h
  intro c' hc'
  obtain ⟨c, hc, hP⟩ := pointwise_mem hlen (fun i c hg => by
    obtain ⟨c', hg', _, _, hlc, _⟩ := hpt i c hg
    exact ⟨c', hg', hlc⟩) c' hc'
  rw [hP]
  exact hl c hc

/-! ### Facts about the other steps -/

theorem normalizeStep_lenInv {df : DF} {n : Nat} (h : lenInv n df) :
    lenInv n (normalizeStep df) := by
  intro c hc
  obtain ⟨a, ha, hae⟩ := List.mem_map.mp hc
  rw [← hae]
  exact h a ha

theorem dropStep_ok {df d : DF} (h : dropStep df = .ok d) :
    (∀ nm ∈ dropNames, ∃ c ∈ df.cols, c.name = nm) ∧
    d.cols = df.cols.filter (fun c => ¬ dropNames.contains c.name) := by
  unfold dropStep at h
  split at h
  · rename_i hall
    injection h with h
    subst h
    refine ⟨?_, rfl⟩
    simpa only [List.all_eq_true, List.any_eq_true, decide_eq_true_eq] using hall
  · exact Except.noConfusion h

theorem dropStep_lenInv {df d : DF} {n : Nat} (h : dropStep df = .ok d)
    (hl : lenInv n df) : lenInv n d := by
  intro c hc
  rw [(dropStep_ok h).2] at hc
  exact hl c (List.mem_of_mem_filter hc)

theorem repairStep_ok {df d : DF} (h : repairStep df = .ok d) :
    ∃ c0, df.cols.find? (fun c => c.name = "density_n") = some c0 ∧
      c0.dty = Dty.obj ∧ d.cols = df.cols.map (repairFun c0) := by
  unfold repairStep at h
  split at h
  · exact Except.noConfusion h
  · rename_i c0 hf
    split at h
    · exact Except.noConfusion h
    · rename_i hdty
      split at h
      · injection h with h
        subst h
        exact ⟨c0, hf, hdty, rfl⟩
      · exact Except.noConfusion h

theorem repairFun_name (c0 c : PCol) : (repairFun c0 c).name = c.name := by
  unfold repairFun
  by_cases h : c.name = "density_n"
  · rw [if_pos h]
  · rw [if_neg h]

theorem repairFun_dty (c0 c : PCol) : (repairFun c0 c).dty = c.dty := by
  unfold repairFun
  by_cases h : c.name = "density_n"
  · rw [if_pos h]
  · rw [if_neg h]

theorem repairStep_keys {df d : DF} (h : repairStep df = .ok d) :
    d.cols.map colKey = df.cols.map colKey := by
  obtain ⟨c0, _, _, hcols⟩ := repairStep_ok h
  rw [hcols, List.map_map]
  apply map_congr_mem
  intro c _
  show colKey (repairFun c0 c) = colKey c
  unfold colKey
  rw [repairFun_name, repairFun_dty]

theorem repairStep_lenInv {df d : DF} {n : Nat} (h : repairStep df = .ok d)
    (hl : lenInv n df) : lenInv n d := by
  obtain ⟨c0, hf, _, hcols⟩ := repairStep_ok h
  have hc0 : c0 ∈ df.cols := List.mem_of_find?_eq_some hf
  intro c hc
  rw [hcols] at hc
  obtain ⟨a, ha, hae⟩ := List.mem_map.mp hc
  rw [← hae]
  unfold repairFun
  by_cases hn : a.name = "density_n"
  · rw [if_pos hn]
    show (c0.cells.map repairCell).length = n
    rw [List.length_map]
    exact hl c0 hc0
  · rw [if_neg hn]
    exact hl a ha

/-! ### Facts about `idxMap` and the imputed columns -/

theorem length_idxMapGo {α β : Type} (f : Nat → α → β) :
    ∀ (s : Nat) (l : List α), (idxMapGo f s l).length = l.length := by
  intro s l
  induction l generalizing s with
  | nil => rfl
  | cons a as ih => simp [idxMapGo, ih]

theorem get?_idxMapGo {α β : Type} (f : Nat → α → β) :
    ∀ (s : Nat) (l : List α) (j : Nat),
      (idxMapGo f s l).get? j = (l.get? j).map (f (s + j)) := by
  intro s l
  induction l generalizing s with
  | nil => intro j; rfl
  | cons a as ih =>
    intro j
    cases j with
    | zero => rfl
    | succ k =>
      show (idxMapGo f (s + 1) as).get? k = (as.get? k).map (f (s + (k + 1)))
      rw [ih (s + 1) k]
      have he : s + 1 + k = s + (k + 1) := by omega
      rw [he]

theorem mem_idxMapGo {α β : Type} (f : Nat → α → β) :
    ∀ (s : Nat) (l : List α) (b : β), b ∈ idxMapGo f s l →
      ∃ i a, a ∈ l ∧ b = f i a := by
  intro s l
  induction l generalizing s with
  | nil => intro b h; exact absurd h (by simp [idxMapGo])
  | cons x xs ih =>
    intro b h
    rcases (by simpa [idxMapGo] using h : b = f s x ∨ b ∈ idxMapGo f (s + 1) xs)
      with rfl | h2
    · exact ⟨s, x, by simp, rfl⟩
    · obtain ⟨i, a, ha, he⟩ := ih (s + 1) b h2
      exact ⟨i, a, by simp [ha], he⟩

theorem idxMapGo_map_name (f : Nat → PCol → PCol) (hf : ∀ i c, (f i c).name = c.name) :
    ∀ (s : Nat) (l : List PCol),
      (idxMapGo f s l).map (fun c => c.name) = l.map (fun c => c.name) := by
  intro s l
  induction l generalizing s with
  | nil => rfl
  | cons a as ih => simp [idxMapGo, hf, ih]

theorem length_knnImpute (k : Nat) (m : QMat) : (knnImpute k m).length = m.length := by
  unfold knnImpute idxMap
  exact length_idxMapGo _ _ _

theorem length_toMatrix (cols : List PCol) (n : Nat) : (toMatrix cols n).length = n := by
  unfold toMatrix
  rw [List.length_map, List.length_range]

theorem imputedCols_names (df : DF) :
    (imputedCols df).map (fun c => c.name) = (numColsOf df).map (fun c => c.name) := by
  unfold imputedCols idxMap
  apply idxMapGo_map_name
  intro i c
  rfl

theorem imputedCols_length (df : DF) :
    (imputedCols df).length = (numColsOf df).length := by
  unfold imputedCols idxMap
  exact length_idxMapGo _ _ _

theorem imputedCols_lenInv (df : DF) :
    ∀ c ∈ imputedCols df, c.cells.length = df.nrows := by
  intro c hc
  unfold imputedCols idxMap at hc
  obtain ⟨i, a, _, hae⟩ := mem_idxMapGo _ 0 _ c hc
  rw [hae]
  show ((knnImpute 15 (toMatrix (numColsOf df) df.nrows)).map
    (fun row => (row.getD i none).map PVal.num)).length = df.nrows
  rw [List.length_map, length_knnImpute, length_toMatrix]

theorem imputeStep_ok {df d : DF} (h : imputeStep df = .ok d) :
    ¬ df.nrows = 0 ∧ ¬ (numColsOf df).isEmpty = true ∧
    d.cols = objColsOf df ++ imputedCols df := by
  unfold imputeStep at h
  split at h
  · exact Except.noConfusion h
  · rename_i h1
    split at h
    · exact Except.noConfusion h
    · rename_i h2
      split at h
      · exact Except.noConfusion h
      · injection h with h
        subst h
        exact ⟨h1, h2, rfl⟩

/-! ### Facts about the median fill and the year cast -/

theorem fillnaStep_names (df : DF) (med : Option ℚ) :
    (fillnaStep df med).cols.map (fun c => c.name) = df.cols.map (fun c => c.name) := by
  unfold fillnaStep
  rw [List.map_map]
  exact map_congr_mem _ _ _ (fun c _ => rfl)

theorem fillnaStep_lenInv {df : DF} {n : Nat} (med : Option ℚ) (hl : lenInv n df) :
    lenInv n (fillnaStep df med) := by
  intro c hc
  obtain ⟨a, ha, hae⟩ := List.mem_map.mp hc
  rw [← hae]
  show (a.cells.map (fillCell med)).length = n
  rw [List.length_map]
  exact hl a ha

theorem fillnaStep_length (df : DF) (med : Option ℚ) :
    (fillnaStep df med).cols.length = df.cols.length := by
  unfold fillnaStep
  exact List.length_map _ _

theorem yearFun_name (c : PCol) : (yearFun c).name = c.name := by
  unfold yearFun
  by_cases h : c.name = "year"
  · rw [if_pos h]
  · rw [if_neg h]

theorem yearFun_len (c : PCol) : (yearFun c).cells.length = c.cells.length := by
  unfold yearFun
  by_cases h : c.name = "year"
  · rw [if_pos h]; exact List.length_map _ _
  · rw [if_neg h]

theorem yearStep_ok {df d : DF} (h : yearStep df = .ok d) :
    (∃ c ∈ df.cols, c.name = "year") ∧ d.cols = df.cols.map yearFun := by
  unfold yearStep at h
  split at h
  · exact Except.noConfusion h
  · rename_i c hf
    split at h
    · injection h with h
      subst h
      refine ⟨⟨c, List.mem_of_find?_eq_some hf, ?_⟩, rfl⟩
      simpa using List.find?_some hf
    · exact Except.noConfusion h

theorem yearStep_names {df d : DF} (h : yearStep df = .ok d) :
    d.cols.map (fun c => c.name) = df.cols.map (fun c => c.name) := by
  rw [(yearStep_ok h).2, List.map_map]
  exact map_congr_mem _ _ _ (fun c _ => yearFun_name c)

theorem yearStep_lenInv {df d : DF} {n : Nat} (h : yearStep df = .ok d)
    (hl : lenInv n df) : lenInv n d := by
  intro c hc
  rw [(yearStep_ok h).2] at hc
  obtain ⟨a, ha, hae⟩ := List.mem_map.mp hc
  rw [← hae, yearFun_len]
  exact hl a ha

theorem imputeBlock_ok {df d : DF} (h : imputeBlock df = .ok d) :
    ∃ dI, imputeStep df = .ok dI ∧ d = fillnaStep dI (densityMedian df) := by
  unfold imputeBlock at h
  split at h
  · exact Except.noConfusion h
  · rename_i dI hI
    injection h with h
    exact ⟨dI, hI, h.symm⟩

/-- Success of `clean_data` decomposed into the success of each stage. -/
theorem cleanData_ok {df0 out : DF} (h : cleanData df0 = .ok out) :
    ∃ df2 df3 df4 df5,
      dropStep (normalizeStep df0) = .ok df2 ∧
      clampStep df2 = .ok df3 ∧
      repairStep df3 = .ok df4 ∧
      imputeBlock df4 = .ok df5 ∧
      yearStep df5 = .ok out := by
  unfold cleanData at h
  split at h
  · exact Except.noConfusion h
  · rename_i df2 h2
    split at h
    · exact Except.noConfusion h
    · rename_i df3 h3
      split at h
      · exact Except.noConfusion h
      · rename_i df4 h4
        split at h
        · exact Except.noConfusion h
        · rename_i df5 h5
          exact ⟨df2, df3, df4, df5, h2, h3, h4, h5, h⟩

/-! ### Presence of the expected columns on success -/

theorem name_mem_of_keys_eq {l1 l2 : List PCol} (h : l1.map colKey = l2.map colKey)
    {nm : String} (hm : ∃ c ∈ l1, c.name = nm) : ∃ c ∈ l2, c.name = nm := by
  obtain ⟨c, hc, hcn⟩ := hm
  have h1 : nm ∈ l1.map (fun c => c.name) := List.mem_map.mpr ⟨c, hc, hcn⟩
  have hnames : l1.map (fun c => c.name) = l2.map (fun c => c.name) := by
    have h2 := congrArg (List.map Prod.fst) h
    rw [List.map_map, List.map_map] at h2
    exact h2
  rw [hnames] at h1
  exact List.mem_map.mp h1

theorem filter_names_of_keys_eq (pn : PCol → Bool)
    (hp : ∀ c1 c2, colKey c1 = colKey c2 → pn c1 = pn c2) :
    ∀ l1 l2 : List PCol, l1.map colKey = l2.map colKey →
      (l1.filter pn).map (fun c => c.name) = (l2.filter pn).map (fun c => c.name) := by
  intro l1
  induction l1 with
  | nil =>
    intro l2 h
    cases l2 with
    | nil => rfl
    | cons b bs => exact absurd h (by simp)
  | cons a as ih =>
    intro l2 h
    cases l2 with
    | nil => exact absurd h (by simp)
    | cons b bs =>
      simp only [List.map_cons, List.cons.injEq] at h
      obtain ⟨hk, ht⟩ := h
      rw [List.filter_cons, List.filter_cons, hp a b hk]
      by_cases hb : pn b = true
      · rw [if_pos hb, if_pos hb]
        simp only [List.map_cons]
        rw [colKey_name hk, ih bs ht]
      · rw [if_neg hb, if_neg hb]
        exact ih bs ht

theorem cleanData_ok_presence {df out : DF} (h : cleanData df = .ok out) :
    ∀ nm ∈ expectedCols, ∃ c ∈ (normalizeStep df).cols, c.name = nm := by
  obtain ⟨df2, df3, df4, df5, h2, h3, h4, h5, h6⟩ := cleanData_ok h
  obtain ⟨hdrop_mem, hdrop_cols⟩ := dropStep_ok h2
  obtain ⟨_, hclamp_mem, _⟩ := clampList_spec pctCols df2 df3 h3
  have hsub : ∀ nm, (∃ c ∈ df2.cols, c.name = nm) →
      ∃ c ∈ (normalizeStep df).cols, c.name = nm := by
    rintro nm ⟨c, hc, hcn⟩
    rw [hdrop_cols] at hc
    exact ⟨c, List.mem_of_mem_filter hc, hcn⟩
  have hkeys32 : df3.cols.map colKey = df2.cols.map colKey := clampList_keys h3
  have hkeys43 : df4.cols.map colKey = df3.cols.map colKey := repairStep_keys h4
  obtain ⟨c0, hf0, hd0, _⟩ := repairStep_ok h4
  have hdens3 : ∃ c ∈ df3.cols, c.name = "density_n" :=
    ⟨c0, List.mem_of_find?_eq_some hf0, by simpa using List.find?_some hf0⟩
  obtain ⟨⟨cy, hcy, hcyn⟩, _⟩ := yearStep_ok h6
  obtain ⟨dI, hI, hfill⟩ := imputeBlock_ok h5
  have hy5 : "year" ∈ df5.cols.map (fun c => c.name) := List.mem_map.mpr ⟨cy, hcy, hcyn⟩
  have hn5 : df5.cols.map (fun c => c.name) = dI.cols.map (fun c => c.name) := by
    rw [hfill]
    exact fillnaStep_names dI _
  rw [hn5] at hy5
  obtain ⟨_, _, hIcols⟩ := imputeStep_ok hI
  rw [hIcols, List.map_append] at hy5
  have hy4 : ∃ c ∈ df4.cols, c.name = "year" := by
    rcases List.mem_append.mp hy5 with h1 | h1
    · obtain ⟨c, hc, hcn⟩ := List.mem_map.mp h1
      exact ⟨c, List.mem_of_mem_filter hc, hcn⟩
    · rw [imputedCols_names] at h1
      obtain ⟨c, hc, hcn⟩ := List.mem_map.mp h1
      exact ⟨c, List.mem_of_mem_filter hc, hcn⟩
  intro nm hnm
  rcases List.mem_append.mp hnm with hnm1 | hnm2
  · rcases List.mem_append.mp hnm1 with hnm3 | hnm4
    · exact hdrop_mem nm hnm3
    · exact hsub nm (hclamp_mem nm hnm4)
  rcases List.mem_cons.mp hnm2 with rfl | hnm5
  · exact hsub _ (name_mem_of_keys_eq hkeys32 hdens3)
  rcases List.mem_cons.mp hnm5 with rfl | hnm6
  · exact hsub _ (name_mem_of_keys_eq hkeys32 (name_mem_of_keys_eq hkeys43 hy4))
  · exact absurd hnm6 (by simp)

/-! ### The claims -/

/-- Claim C1 (code bug): the spec says the decimal-separator repair
replaces commas by periods and then reinterprets the density column as
floating point, putting it in the numeric group that imputation fills.
The code's line 93 computes `astype('float')` but discards the result, so
only the comma-to-period half happens: on `sampleDF` (density strings
`"12,5"`, `"103.2"`), the cleaned frame still carries `density_n` as an
object (string) column with cells `"12.5"`, `"103.2"`, outside the
numeric group. -/
theorem C1_density_column_stays_string :
    okFrame (cleanData sampleDF) = some sampleOut ∧
    sampleOut.cols.find? (fun c => c.name = "density_n")
      = some ⟨"density_n", Dty.obj, [some (.str "12.5"), some (.str "103.2")]⟩ ∧
    PCol.isNumeric
      ⟨"density_n", Dty.obj, [some (.str "12.5"), some (.str "103.2")]⟩ = false := by
  refine ⟨by decide, by decide, by decide⟩

/-- Claim C2, counterexample: the imputation step does not leave
categorical columns untouched.  On `sampleDF2`, whose categorical
`entity` column is `["a", missing]`, `clean_data` succeeds and the
missing `entity` cell comes out as the number 57.85 (the density median),
because line 110's `fillna` is applied to the whole frame. -/
theorem C2_counterexample :
    okFrame (cleanData sampleDF2) = some sampleOut2 ∧
    sampleDF2.cols.get? 0 = some ⟨"entity", Dty.obj, [some (.str "a"), none]⟩ ∧
    sampleOut2.cols.get? 0
      = some ⟨"entity", Dty.obj, [some (.str "a"), some (.num (1157 / 20))]⟩ := by
  refine ⟨by with_unfolding_all decide, by decide, by with_unfolding_all decide⟩

/-- Claim C2, amended: in the imputation block (lines 98-110), the KNN
imputer itself touches only numeric columns, but the final `fillna` fills
the missing cells of every column — categorical ones included — with the
pre-imputation median of the density column; the non-missing categorical
cells are unchanged. -/
theorem C2_amended_fill (df dOut : DF) (h : imputeBlock df = .ok dOut) :
    ∀ c ∈ df.cols, c.isNumeric = false →
      ∃ c' ∈ dOut.cols, c'.name = c.name ∧ c'.dty = c.dty ∧
        c'.cells = c.cells.map (fillCell (densityMedian df)) := by
  obtain ⟨dI, hI, hfill⟩ := imputeBlock_ok h
  obtain ⟨_, _, hIcols⟩ := imputeStep_ok hI
  intro c hc hcat
  have hcObj : c ∈ objColsOf df := by
    unfold objColsOf
    apply List.mem_filter.mpr
    exact ⟨hc, by simp [hcat]⟩
  have hcI : c ∈ dI.cols := by
    rw [hIcols]
    exact List.mem_append.mpr (Or.inl hcObj)
  refine ⟨{ c with cells := c.cells.map (fillCell (densityMedian df)) },
    ?_, rfl, rfl, rfl⟩
  rw [hfill]
  unfold fillnaStep
  exact List.mem_map.mpr ⟨c, hcI, rfl⟩

/-- Witness for the amended C2, at the concrete frame `dfW`. -/
theorem C2_amended_fill_witness :
    imputeBlock dfW = Except.ok dfWOut ∧
    (⟨"entity", Dty.obj, [none, some (.str "x")]⟩ : PCol) ∈ dfW.cols ∧
    PCol.isNumeric ⟨"entity", Dty.obj, [none, some (.str "x")]⟩ = false ∧
    (∃ c' ∈ dfWOut.cols,
      c'.name = "entity" ∧ c'.dty = Dty.obj ∧
      c'.cells = [none, some (.str "x")].map (fillCell (densityMedian dfW))) := by
  refine ⟨by with_unfolding_all rfl, by decide, by decide, ?_⟩
  exact C2_amended_fill dfW dfWOut (by with_unfolding_all rfl)
    ⟨"entity", Dty.obj, [none, some (.str "x")]⟩ (by decide) (by decide)

/-- Claim C3, counterexample: normalizing the raw density header (the
characters `Density`, backslash, `n`, `(P/Km2)`) does not give `density`:
the backslash becomes a space and the `n` survives, so the result is
`density_n` — which is exactly the name line 92 of the code uses. -/
theorem C3_counterexample :
    ¬ normalizeName "Density\\n(P/Km2)" = "density" := by decide

/-- Claim C3, amended: the three normalization examples with the density
example corrected to `density_n`. -/
theorem C3_amended_examples :
    normalizeName "Access to electricity (% of population)" = "access_to_electricity" ∧
    normalizeName "GDP growth" = "gdp_growth" ∧
    normalizeName "Density\\n(P/Km2)" = "density_n" := by
  refine ⟨by decide, by decide, by decide⟩

/-- Claim C4: on a numeric matrix whose column `j` has no missing entry,
the KNN imputation of lines 102-103 (`KNNImputer(n_neighbors=15)`) leaves
every entry of column `j` unchanged: observed values pass through the
imputer. -/
theorem C4_knn_noop_full_column (m : QMat) (j : Nat)
    (h : ∀ row ∈ m, hasValAt row j = true) :
    ∀ i row, m.get? i = some row →
      ∃ row', (knnImpute 15 m).get? i = some row' ∧ row'.get? j = row.get? j := by
  intro i row hrow
  refine ⟨idxMap (fun j2 cell =>
    match cell with
    | some v => some v
    | none => fillValue 15 m i j2) row, ?_, ?_⟩
  · show (idxMapGo _ 0 m).get? i = _
    rw [get?_idxMapGo, hrow, Nat.zero_add]
    rfl
  · show (idxMapGo _ 0 row).get? j = row.get? j
    rw [get?_idxMapGo]
    have hv := h row (List.get?_mem hrow)
    unfold hasValAt at hv
    revert hv
    cases hc : row.get? j with
    | none => intro _; rfl
    | some cell =>
      cases cell with
      | none => intro hv; exact absurd hv (by decide)
      | some v => intro _; rfl

/-- Witness for C4 at the concrete matrix `mSample`, column 0, row 0. -/
theorem C4_knn_noop_full_column_witness :
    (∀ row ∈ mSample, hasValAt row 0 = true) ∧
    (∃ row', (knnImpute 15 mSample).get? 0 = some row' ∧
      row'.get? 0 = [some (1 : ℚ), none].get? 0) := by
  refine ⟨by decide, ?_⟩
  exact C4_knn_noop_full_column mSample 0 (by decide) 0 [some 1, none] (by decide)

/-- Claim C5: the clamping step (lines 86-88) sends every numeric value
above 100 in the four percentage columns to exactly 100, leaves values at
most 100 and missing cells of those columns unchanged, and leaves every
column outside the four — in particular `gdp_growth` — entirely
unchanged. -/
theorem C5_clamp_spec (df d' : DF) (h : clampStep df = .ok d') :
    "gdp_growth" ∉ pctCols ∧
    ∀ i c, df.cols.get? i = some c → ∃ c', d'.cols.get? i = some c' ∧
      c'.name = c.name ∧
      (c.name ∈ pctCols →
        (∀ j q, c.cells.get? j = some (some (.num q)) →
          c'.cells.get? j = some (some (.num (if 100 < q then 100 else q)))) ∧
        (∀ j, c.cells.get? j = some none → c'.cells.get? j = some none)) ∧
      (c.name ∉ pctCols → c' = c) := by
  obtain ⟨_, _, hpt⟩ := clampList_spec pctCols df d' h
  refine ⟨by decide, ?_⟩
  intro i c hget
  obtain ⟨c', hg', hn, _, _, hin, hout⟩ := hpt i c hget
  refine ⟨c', hg', hn, ?_, hout⟩
  intro hmem
  have hcells := hin hmem
  constructor
  · intro j q hq
    rw [hcells, List.get?_map, hq]
    by_cases h100 : (100 : ℚ) < q
    · simp [clampCell, h100]
    · simp [clampCell, h100]
  · intro j hq
    rw [hcells, List.get?_map, hq]
    rfl

/-- Witness for C5 at the concrete frame `dfClamp`: 150 is clamped to
100, 45 and the missing cell survive, `gdp_growth`'s 200 survives. -/
theorem C5_clamp_spec_witness :
    clampStep dfClamp = Except.ok dfClampOut ∧
    (∃ c', dfClampOut.cols.get? 0 = some c' ∧
      c'.cells.get? 0 = some (some (.num 100)) ∧
      c'.cells.get? 2 = some (some (.num 45)) ∧
      c'.cells.get? 3 = some none) ∧
    (∃ c', dfClampOut.cols.get? 4 = some c' ∧ c' = nCol "gdp_growth" [200]) := by
  have h := C5_clamp_spec dfClamp dfClampOut (by with_unfolding_all rfl)
  refine ⟨by with_unfolding_all rfl, ?_, ?_⟩
  · obtain ⟨c', hg', _, hpct, _⟩ := h.2 0
      ⟨"access_to_electricity", .num,
        [some (.num 150), some (.num 100), some (.num 45), none]⟩ (by decide)
    obtain ⟨hval, hmiss⟩ := hpct (by decide)
    refine ⟨c', hg', ?_, ?_, hmiss 3 (by decide)⟩
    · have h1 := hval 0 150 (by decide)
      rw [if_pos (by norm_num : (100 : ℚ) < 150)] at h1
      exact h1
    · have h1 := hval 2 45 (by decide)
      rw [if_neg (by norm_num : ¬ (100 : ℚ) < 45)] at h1
      exact h1
  · obtain ⟨c', hg', _, _, hout⟩ := h.2 4 (nCol "gdp_growth" [200]) (by decide)
    exact ⟨c', hg', hout (by decide)⟩

/-- Claim C6: column-name normalization is idempotent — normalizing an
already-normalized name returns it unchanged. -/
theorem C6_normalize_idempotent (s : String) :
    normalizeName (normalizeName s) = normalizeName s := by
  show String.mk (normChars (String.mk (normChars s.data)).data) = _
  exact congrArg String.mk (normChars_idem s.data)

/-- Claim C7: when any expected column — a pruned column, a percentage
column, the density column or the year column — is absent after
normalization, `clean_data` raises and writes no cleaned artifact. -/
theorem C7_missing_column_fails (df : DF) (nm : String)
    (h1 : nm ∈ expectedCols) (h2 : nm ∉ (normalizeStep df).names) :
    failsOn (cleanData df) = true := by
  cases he : cleanData df with
  | error e => rfl
  | ok out =>
    exfalso
    apply h2
    obtain ⟨c, hc, hcn⟩ := cleanData_ok_presence he nm h1
    exact List.mem_map.mpr ⟨c, hc, hcn⟩

/-- Witness for C7: `sampleNoYear` lacks the `year` column and
`clean_data` fails on it. -/
theorem C7_missing_column_fails_witness :
    "year" ∈ expectedCols ∧ "year" ∉ (normalizeStep sampleNoYear).names ∧
    failsOn (cleanData sampleNoYear) = true := by
  refine ⟨by decide, by decide, ?_⟩
  exact C7_missing_column_fails sampleNoYear "year" (by decide) (by decide)

/-- Claim C8: on an empty (zero-row) record set, `clean_data` fails — the
KNN imputer refuses a fit matrix with zero samples — and writes no
artifact. -/
theorem C8_empty_input_fails (df : DF) (hu : df.uniform) (h0 : df.nrows = 0) :
    failsOn (cleanData df) = true := by
  cases he : cleanData df with
  | error e => rfl
  | ok out =>
    exfalso
    obtain ⟨df2, df3, df4, df5, h2, h3, h4, h5, _⟩ := cleanData_ok he
    have hl0 : lenInv 0 df := by
      intro c hc
      rw [hu c hc, h0]
    have hl4 : lenInv 0 df4 :=
      repairStep_lenInv h4 (clampList_lenInv h3 (dropStep_lenInv h2 (normalizeStep_lenInv hl0)))
    obtain ⟨dI, hI, _⟩ := imputeBlock_ok h5
    obtain ⟨hn0, hne, _⟩ := imputeStep_ok hI
    apply hn0
    cases hc4 : df4.cols with
    | nil => unfold DF.nrows; rw [hc4]
    | cons c cs =>
      unfold DF.nrows
      rw [hc4]
      exact hl4 c (by rw [hc4]; simp)

/-- Witness for C8: the header-only frame `sampleDF0`. -/
theorem C8_empty_input_fails_witness :
    sampleDF0.uniform ∧ sampleDF0.nrows = 0 ∧
    failsOn (cleanData sampleDF0) = true := by
  refine ⟨by decide, by decide, ?_⟩
  exact C8_empty_input_fails sampleDF0 (by decide) (by decide)

/-- Claim C9: on every rectangular record set on which `clean_data`
succeeds, the cleaned record set has exactly the raw record set's number
of rows (and is again rectangular): cleaning drops columns, never rows. -/
theorem C9_row_count_preserved (df out : DF) (hu : df.uniform)
    (h : cleanData df = .ok out) : out.nrows = df.nrows ∧ out.uniform := by
  obtain ⟨df2, df3, df4, df5, h2, h3, h4, h5, h6⟩ := cleanData_ok h
  have hl0 : lenInv df.nrows df := hu
  have hl4 : lenInv df.nrows df4 :=
    repairStep_lenInv h4 (clampList_lenInv h3 (dropStep_lenInv h2 (normalizeStep_lenInv hl0)))
  obtain ⟨dI, hI, hfill⟩ := imputeBlock_ok h5
  obtain ⟨hn0, hne, hIcols⟩ := imputeStep_ok hI
  have hne2 : numColsOf df4 ≠ [] := by
    intro hE
    apply hne
    rw [hE]
    rfl
  have h4n : df4.nrows = df.nrows := by
    cases hc4 : df4.cols with
    | nil =>
      exfalso
      apply hne2
      unfold numColsOf
      rw [hc4]
      rfl
    | cons c cs =>
      unfold DF.nrows
      rw [hc4]
      exact hl4 c (by rw [hc4]; simp)
  have hlI : lenInv df.nrows dI := by
    intro c hc
    rw [hIcols] at hc
    rcases List.mem_append.mp hc with hcm | hcm
    · exact hl4 c (List.mem_of_mem_filter hcm)
    · rw [← h4n]
      exact imputedCols_lenInv df4 c hcm
  have hl5 : lenInv df.nrows df5 := by
    rw [hfill]
    exact fillnaStep_lenInv _ hlI
  have hlout : lenInv df.nrows out := yearStep_lenInv h6 hl5
  have hlen_out : out.cols.length = dI.cols.length := by
    rw [(yearStep_ok h6).2, List.length_map, hfill, fillnaStep_length]
  have hpos : 0 < dI.cols.length := by
    rw [hIcols, List.length_append, imputedCols_length]
    have hp := List.length_pos.mpr hne2
    omega
  cases hcout : out.cols with
  | nil =>
    exfalso
    rw [hcout] at hlen_out
    simp at hlen_out
    omega
  | cons c cs =>
    have hn1 : out.nrows = c.cells.length := by
      unfold DF.nrows
      rw [hcout]
    have hn2 : c.cells.length = df.nrows := hlout c (by rw [hcout]; simp)
    have hout_n : out.nrows = df.nrows := by rw [hn1, hn2]
    refine ⟨hout_n, ?_⟩
    intro x hx
    rw [hout_n]
    exact hlout x hx

/-- Witness for C9 at the concrete frame `sampleDF` (two rows in, two
rows out). -/
theorem C9_row_count_preserved_witness :
    sampleDF.uniform ∧ cleanData sampleDF = Except.ok sampleOut ∧
    sampleOut.nrows = sampleDF.nrows := by
  refine ⟨by decide, by with_unfolding_all rfl, ?_⟩
  exact (C9_row_count_preserved sampleDF sampleOut (by decide)
    (by with_unfolding_all rfl)).1

/-- Claim C10: the cleaned frame's columns are the surviving (post-prune)
columns reordered: all non-numeric (object) columns first, in their raw
relative order, then all numeric columns in their raw relative order —
the effect of `pd.concat([categoricals, numerics_df], axis=1)`. -/
theorem C10_column_reorder (df out : DF) (h : cleanData df = .ok out) :
    out.names =
      (((normalizeStep df).cols.filter (fun c => ¬ dropNames.contains c.name)).filter
        (fun c => ¬ c.isNumeric)).map (fun c => c.name) ++
      (((normalizeStep df).cols.filter (fun c => ¬ dropNames.contains c.name)).filter
        (fun c => c.isNumeric)).map (fun c => c.name) := by
  obtain ⟨df2, df3, df4, df5, h2, h3, h4, h5, h6⟩ := cleanData_ok h
  obtain ⟨_, hdrop_cols⟩ := dropStep_ok h2
  obtain ⟨dI, hI, hfill⟩ := imputeBlock_ok h5
  obtain ⟨_, _, hIcols⟩ := imputeStep_ok hI
  have hkeys : df4.cols.map colKey = df2.cols.map colKey := by
    rw [repairStep_keys h4, clampList_keys h3]
  show out.cols.map (fun c => c.name) = _
  rw [yearStep_names h6, hfill, fillnaStep_names, hIcols, List.map_append,
    imputedCols_names]
  unfold objColsOf numColsOf
  rw [← hdrop_cols]
  congr 1
  · exact filter_names_of_keys_eq _
      (fun c1 c2 hk => by rw [isNumeric_of_colKey hk]) _ _ hkeys
  · exact filter_names_of_keys_eq _
      (fun c1 c2 hk => isNumeric_of_colKey hk) _ _ hkeys

/-- Witness for C10 at the concrete frame `sampleDF`: the two object
columns come first, then the six numeric columns, each group in raw
order. -/
theorem C10_column_reorder_witness :
    cleanData sampleDF = Except.ok sampleOut ∧
    sampleOut.names = ["entity", "density_n", "year", "access_to_electricity",
      "access_to_clean_fuels_for_cooking",
      "renewable_energy_share_in_the_total_final_energy_consumption",
      "low_carbon_electricity", "gdp_growth"] := by
  refine ⟨by with_unfolding_all rfl, ?_⟩
  have h := C10_column_reorder sampleDF sampleOut (by with_unfolding_all rfl)
  rw [h]
  decide
